import Mathlib

/-!
Verification of the LuminaNote task/project persistence layer.

The definitions below are a shallow embedding of the repository's
TypeScript source:

* `Task`, `Project` follow the entity shapes in `src/types.ts`
  (including the optional `dueTime`, `isRecurring`, `lastCompletedAt`
  task fields used throughout the UI and the task hook);
* `TaskRow`, `insertTask`, `getAllTasks`, `repoUpdateTask`,
  `updateTaskOrder`, `deleteRow` follow `services/taskRepository.ts`
  together with the `tasks` table schema created in
  `services/database.ts` (nine columns: id, title, completed, category,
  priority, created_at, project_id, due_date, task_order);
* `resetRecurring`, `toggleTask`, `updateTaskMem`, `deleteTaskMem`,
  `migrateTasks` follow the SQLite-backed `useTasks` hook;
* `updateProgress` follows the `useProjects` hook.

JavaScript numbers are modelled as `Nat`/`Int`/`ℚ` (the values involved
are small counts and indices), JavaScript truthiness of optional fields
is modelled explicitly, and SQL statements are modelled by their effect
on the list of rows of the affected table.
-/

namespace LuminaNote

/-- Task categories: the string enum `'today' | 'week' | 'backlog'`. -/
inductive Category
  | today
  | week
  | backlog
deriving DecidableEq, Repr

/-- Task priorities: the string enum `'low' | 'medium' | 'high'`. -/
inductive Priority
  | low
  | medium
  | high
deriving DecidableEq, Repr

/-- The `Task` entity (`src/types.ts`), with the optional scheduling and
recurrence fields (`dueTime`, `isRecurring`, `lastCompletedAt`) that the
task hook and the task modal read and write. Optional fields are
`Option`s; `order` is the optional drag-and-drop index. -/
structure Task where
  id : String
  title : String
  completed : Bool
  category : Category
  priority : Priority
  createdAt : String
  projectId : Option String
  dueDate : Option String
  dueTime : Option String
  isRecurring : Option Bool
  lastCompletedAt : Option String
  order : Option Nat
deriving DecidableEq, Repr

/-- One row of the `tasks` table as created by `createTables` in
`services/database.ts`: nine columns, booleans stored as 0/1 integers,
nullable `project_id` and `due_date`. -/
structure TaskRow where
  id : String
  title : String
  completed : Nat
  category : Category
  priority : Priority
  created_at : String
  project_id : Option String
  due_date : Option String
  task_order : Nat
deriving DecidableEq, Repr

/-- JavaScript `s || null` on an optional string: `undefined` and the
empty string are falsy and become `null`. -/
def jsOrNull (s : Option String) : Option String :=
  match s with
  | none => none
  | some v => if v = "" then none else some v

/-- The parameter list built by `insertTask` / `updateTask` in
`services/taskRepository.ts`: `completed ? 1 : 0`, `projectId || null`,
`dueDate || null`, `order || 0`. -/
def taskToRow (t : Task) : TaskRow :=
  { id := t.id
    title := t.title
    completed := if t.completed then 1 else 0
    category := t.category
    priority := t.priority
    created_at := t.createdAt
    project_id := jsOrNull t.projectId
    due_date := jsOrNull t.dueDate
    task_order := t.order.getD 0 }

/-- The row-to-entity conversion used by `getAllTasks` and
`getTasksByCategory` in `services/taskRepository.ts`: it reads exactly
the nine columns; the task it builds has no `dueTime`, `isRecurring` or
`lastCompletedAt` key. -/
def rowToTask (r : TaskRow) : Task :=
  { id := r.id
    title := r.title
    completed := r.completed != 0
    category := r.category
    priority := r.priority
    createdAt := r.created_at
    projectId := r.project_id
    dueDate := r.due_date
    dueTime := none
    isRecurring := none
    lastCompletedAt := none
    order := some r.task_order }

/-- `INSERT INTO tasks ... VALUES (...)`: appends one row. -/
def insertTask (t : Task) (db : List TaskRow) : List TaskRow :=
  db ++ [taskToRow t]

/-- Insert a row into a list sorted by `task_order`, after any rows with
an equal `task_order` (stable insertion). -/
def insertByOrder (r : TaskRow) : List TaskRow → List TaskRow
  | [] => [r]
  | x :: xs => if x.task_order ≤ r.task_order then x :: insertByOrder r xs else r :: x :: xs

/-- Stable sort of the table by `task_order` ascending, modelling
`ORDER BY task_order ASC`. -/
def sortByOrder (db : List TaskRow) : List TaskRow :=
  db.foldl (fun acc r => insertByOrder r acc) []

/-- `getAllTasks`: `SELECT * FROM tasks ORDER BY task_order ASC`, each
row converted by `rowToTask`. -/
def getAllTasks (db : List TaskRow) : List Task :=
  (sortByOrder db).map rowToTask

/-- `getTasksByCategory`: `SELECT * FROM tasks WHERE category = ? ORDER
BY task_order ASC`, each row converted by `rowToTask`. -/
def getTasksByCategory (c : Category) (db : List TaskRow) : List Task :=
  ((sortByOrder db).filter (fun r => r.category == c)).map rowToTask

/-- `updateTask` in `services/taskRepository.ts`: `UPDATE tasks SET
title, completed, category, priority, project_id, due_date, task_order
WHERE id = ?` (`id` and `created_at` are not touched). -/
def repoUpdateTask (t : Task) (db : List TaskRow) : List TaskRow :=
  db.map fun r =>
    if r.id = t.id then
      { r with
        title := t.title
        completed := if t.completed then 1 else 0
        category := t.category
        priority := t.priority
        project_id := jsOrNull t.projectId
        due_date := jsOrNull t.dueDate
        task_order := t.order.getD 0 }
    else r

/-- `DELETE FROM tasks WHERE id = ?`. -/
def deleteRow (id : String) (db : List TaskRow) : List TaskRow :=
  db.filter fun r => r.id != id

/-- The body of `updateTaskOrder`'s `forEach`: starting from index `i`,
run one `UPDATE tasks SET task_order = ? WHERE id = ?` per id, with
consecutive indices. -/
def runOrderUpdates (i : Nat) : List String → List TaskRow → List TaskRow
  | [], db => db
  | tid :: rest, db =>
      runOrderUpdates (i + 1) rest
        (db.map fun r => if r.id = tid then { r with task_order := i } else r)

/-- `updateTaskOrder` in `services/taskRepository.ts`: sets each listed
id's `task_order` to its position in the list; the category argument is
ignored (`_category`), and no validation of the list is performed. -/
def updateTaskOrder (_category : Category) (orderedIds : List String) (db : List TaskRow) : List TaskRow :=
  runOrderUpdates 0 orderedIds db

/-- JavaScript truthiness of an optional boolean field. -/
def truthyBool (b : Option Bool) : Bool :=
  b.getD false

/-- The filter of the daily recurring-reset sweep in the `useTasks`
hook: `isRecurring` truthy, `completed` true, and `lastCompletedAt`
falsy (absent or empty) or mapping to a calendar day different from
`today`. `dayOf` stands for `s => new Date(s).toDateString()`. -/
def sweepMatch (dayOf : String → String) (today : String) (t : Task) : Bool :=
  if !truthyBool t.isRecurring || !t.completed then false
  else
    match t.lastCompletedAt with
    | none => true
    | some s => if s = "" then true else dayOf s != today

/-- The daily recurring-reset sweep (the `useEffect` in the `useTasks`
hook): collect the matching tasks, and when there is at least one,
rebuild the collection setting `completed = false` on every task whose
id occurs among the matches. The effect only calls `setTasks`; it
issues no repository write. -/
def resetRecurring (dayOf : String → String) (today : String) (ts : List Task) : List Task :=
  let tasksToReset := ts.filter (sweepMatch dayOf today)
  if tasksToReset.length > 0 then
    ts.map fun t =>
      if tasksToReset.any (fun t2 => t2.id == t.id) then { t with completed := false } else t
  else ts

/-- `toggleTask` in the `useTasks` hook: flip `completed`; stamp
`lastCompletedAt := now` exactly when `isRecurring` is truthy and the
task is transitioning to completed. -/
def toggleTask (now : String) (id : String) (ts : List Task) : List Task :=
  ts.map fun t =>
    if t.id = id then
      let nowCompleted := !t.completed
      { t with
        completed := nowCompleted
        lastCompletedAt :=
          if truthyBool t.isRecurring && nowCompleted then some now else t.lastCompletedAt }
    else t

/-- A `Partial<Task>`: each field either absent or supplying a new
value (for the optional task fields the supplied value is itself an
optional value). -/
structure TaskUpdate where
  id : Option String
  title : Option String
  completed : Option Bool
  category : Option Category
  priority : Option Priority
  createdAt : Option String
  projectId : Option (Option String)
  dueDate : Option (Option String)
  dueTime : Option (Option String)
  isRecurring : Option (Option Bool)
  lastCompletedAt : Option (Option String)
  order : Option (Option Nat)
deriving DecidableEq, Repr

/-- The spread `{ ...task, ...updates }`: present fields of the update
override the task's fields. -/
def applyUpdate (u : TaskUpdate) (t : Task) : Task :=
  { id := u.id.getD t.id
    title := u.title.getD t.title
    completed := u.completed.getD t.completed
    category := u.category.getD t.category
    priority := u.priority.getD t.priority
    createdAt := u.createdAt.getD t.createdAt
    projectId := u.projectId.getD t.projectId
    dueDate := u.dueDate.getD t.dueDate
    dueTime := u.dueTime.getD t.dueTime
    isRecurring := u.isRecurring.getD t.isRecurring
    lastCompletedAt := u.lastCompletedAt.getD t.lastCompletedAt
    order := u.order.getD t.order }

/-- The in-memory part of `updateTask` in the `useTasks` hook: merge
the partial update onto every task whose id matches. -/
def updateTaskMem (id : String) (u : TaskUpdate) (ts : List Task) : List Task :=
  ts.map fun t => if t.id = id then applyUpdate u t else t

/-- The in-memory part of `deleteTask` in the `useTasks` hook. -/
def deleteTaskMem (id : String) (ts : List Task) : List Task :=
  ts.filter fun t => t.id != id

/-- The relational-mode state of the task manager: the rows of the
`tasks` table plus the in-memory collection (`dbTasks`). -/
structure ManagerState where
  rows : List TaskRow
  tasks : List Task
deriving DecidableEq, Repr

/-- The relational-mode recurring-reset sweep: in `useDb` mode the
effect's `setTasks` is `setDbTasks`, so only the in-memory collection
is rebuilt; the sweep body contains no `taskRepo` call. -/
def resetRecurringDB (dayOf : String → String) (today : String) (s : ManagerState) : ManagerState :=
  { s with tasks := resetRecurring dayOf today s.tasks }

/-- `updateTask` in relational mode: merge in memory, then look up the
merged task by id and, when found, persist it through the repository
`UPDATE`. -/
def updateTaskDB (id : String) (u : TaskUpdate) (s : ManagerState) : ManagerState :=
  let updated := s.tasks.map fun t => if t.id = id then applyUpdate u t else t
  match updated.find? (fun t => t.id == id) with
  | some t => ⟨repoUpdateTask t s.rows, updated⟩
  | none => ⟨s.rows, updated⟩

/-- `deleteTask` in relational mode: repository `DELETE` plus in-memory
filter. -/
def deleteTaskDB (id : String) (s : ManagerState) : ManagerState :=
  ⟨deleteRow id s.rows, deleteTaskMem id s.tasks⟩

/-- The migration `useEffect` of the `useTasks` hook, run when the
database becomes ready: if `getAllTasks()` returns any task, use the
database contents as the collection; otherwise, if the localStorage
collection is non-empty, insert each of its tasks and use it; otherwise
just switch to the (empty) database. -/
def migrateTasks (rows : List TaskRow) (localTasks : List Task) : ManagerState :=
  let tasks := getAllTasks rows
  if tasks.length > 0 then ⟨rows, tasks⟩
  else if localTasks.length > 0 then
    ⟨localTasks.foldl (fun db t => insertTask t db) rows, localTasks⟩
  else ⟨rows, []⟩

/-- Project status: `'active' | 'on-hold' | 'completed'`. -/
inductive ProjectStatus
  | active
  | onHold
  | completed
deriving DecidableEq, Repr

/-- Project colors: `'slate' | 'sage' | 'amber' | 'rose'`. -/
inductive ProjectColor
  | slate
  | sage
  | amber
  | rose
deriving DecidableEq, Repr

/-- The `Project` entity (`src/types.ts`). -/
structure Project where
  id : String
  name : String
  description : String
  progress : Int
  totalTasks : Nat
  completedTasks : Nat
  color : ProjectColor
  status : ProjectStatus
  createdAt : String
  deadline : Option String
  tags : List String
deriving DecidableEq, Repr

/-- JavaScript `Math.round`: round half toward positive infinity,
`⌊x + 1/2⌋`. -/
def mathRound (x : ℚ) : Int :=
  Int.floor (x + 1 / 2)

/-- The progress computed by `updateProgress` in the `useProjects`
hook: `totalTasks > 0 ? Math.round((completedTasks / totalTasks) * 100) : 0`. -/
def progressValue (completedTasks totalTasks : Nat) : Int :=
  if totalTasks > 0 then mathRound ((completedTasks : ℚ) / (totalTasks : ℚ) * 100) else 0

/-- The status computed by `updateProgress`:
`progress === 100 ? 'completed' : 'active'`. -/
def statusValue (progress : Int) : ProjectStatus :=
  if progress = 100 then ProjectStatus.completed else ProjectStatus.active

/-- `updateProgress(id, completedTasks, totalTasks)` in the
`useProjects` hook: compute progress and status, then merge
`{ completedTasks, totalTasks, progress, status }` onto every project
whose id matches (the body of `updateProject`). -/
def updateProgress (id : String) (completedTasks totalTasks : Nat) (ps : List Project) : List Project :=
  let progress := progressValue completedTasks totalTasks
  let status := statusValue progress
  ps.map fun p =>
    if p.id = id then
      { p with
        completedTasks := completedTasks
        totalTasks := totalTasks
        progress := progress
        status := status }
    else p
/-! ## Helper lemmas -/

/-- Pointwise effect on one row of running the order updates of
`updateTaskOrder` starting at index `i`. -/
def pointwiseRun (i : Nat) : List String → TaskRow → TaskRow
  | [], r => r
  | tid :: rest, r =>
      pointwiseRun (i + 1) rest (if r.id = tid then { r with task_order := i } else r)

theorem runOrderUpdates_eq_map : ∀ (ids : List String) (i : Nat) (db : List TaskRow),
    runOrderUpdates i ids db = db.map (pointwiseRun i ids)
  | [], i, db => by
      have h : pointwiseRun i [] = fun r => r := funext fun r => rfl
      simp [runOrderUpdates, h]
  | tid :: rest, i, db => by
      simp only [runOrderUpdates]
      rw [runOrderUpdates_eq_map rest (i + 1), List.map_map]
      rfl

theorem pointwiseRun_category : ∀ (ids : List String) (i : Nat) (r : TaskRow),
    (pointwiseRun i ids r).category = r.category
  | [], _, _ => rfl
  | tid :: rest, i, r => by
      simp only [pointwiseRun]
      rw [pointwiseRun_category rest]
      by_cases h : r.id = tid <;> simp [h]

theorem pointwiseRun_not_mem : ∀ (ids : List String) (i : Nat) (r : TaskRow),
    r.id ∉ ids → pointwiseRun i ids r = r
  | [], _, _, _ => rfl
  | tid :: rest, i, r, h => by
      simp only [List.mem_cons, not_or] at h
      simp only [pointwiseRun, if_neg h.1]
      exact pointwiseRun_not_mem rest (i + 1) r h.2

/-- Index of the first occurrence of a string in a list. -/
def posOf (a : String) : List String → Nat
  | [] => 0
  | b :: bs => if b = a then 0 else posOf a bs + 1

theorem pointwiseRun_mem : ∀ (ids : List String) (i : Nat) (r : TaskRow),
    ids.Nodup → r.id ∈ ids →
    pointwiseRun i ids r = { r with task_order := i + posOf r.id ids }
  | [], _, _, _, h => absurd h (List.not_mem_nil _)
  | tid :: rest, i, r, hnd, h => by
      rcases List.nodup_cons.mp hnd with ⟨htid, hrest⟩
      by_cases hr : r.id = tid
      · have hnotin : ({ r with task_order := i } : TaskRow).id ∉ rest := by
          simpa [hr] using htid
        simp only [pointwiseRun, if_pos hr, pointwiseRun_not_mem rest (i + 1) _ hnotin]
        simp [posOf, hr]
      · have hmem : r.id ∈ rest := by
          rcases List.mem_cons.mp h with h1 | h1
          · exact absurd h1 hr
          · exact h1
        simp only [pointwiseRun, if_neg hr]
        rw [pointwiseRun_mem rest (i + 1) r hrest hmem]
        have hne : tid = r.id ↔ False := by
          constructor
          · intro he
            exact hr he.symm
          · intro hf
            exact hf.elim
        simp only [posOf, hne, if_false]
        have harith : i + 1 + posOf r.id rest = i + (posOf r.id rest + 1) := by omega
        rw [harith]

theorem map_posOf_self : ∀ (l : List String), l.Nodup →
    l.map (fun a => posOf a l) = List.range l.length
  | [], _ => rfl
  | a :: as, hnd => by
      rcases List.nodup_cons.mp hnd with ⟨ha, has⟩
      have hhead : posOf a (a :: as) = 0 := by simp [posOf]
      have htail : as.map (fun b => posOf b (a :: as)) =
          (as.map (fun b => posOf b as)).map (fun n => n + 1) := by
        rw [List.map_map]
        refine List.map_congr_left fun b hb => ?_
        have hab : ¬(a = b) := fun he => ha (he ▸ hb)
        simp [posOf, hab]
      simp only [List.map_cons, hhead, htail, map_posOf_self as has]
      simp [List.range_succ_eq_map, Nat.succ_eq_add_one]

/-- When no task matches the sweep filter, the sweep leaves the
collection unchanged. -/
theorem resetRecurring_nil_filter (dayOf : String → String) (today : String) (ts : List Task)
    (h : ts.filter (sweepMatch dayOf today) = []) : resetRecurring dayOf today ts = ts := by
  simp only [resetRecurring, h]
  simp

theorem getAllTasks_length (db : List TaskRow) : (getAllTasks db).length = db.length := by
  have hins : ∀ (r : TaskRow) (l : List TaskRow), (insertByOrder r l).length = l.length + 1 := by
    intro r l
    induction l with
    | nil => rfl
    | cons x xs ih =>
        unfold insertByOrder
        by_cases h : x.task_order ≤ r.task_order
        · rw [if_pos h]
          simp [ih]
        · rw [if_neg h]
          simp
  have hfold : ∀ (db acc : List TaskRow),
      (db.foldl (fun acc r => insertByOrder r acc) acc).length = acc.length + db.length := by
    intro db
    induction db with
    | nil =>
        intro acc
        simp
    | cons r rest ih =>
        intro acc
        rw [List.foldl_cons, ih, hins]
        simp [List.length_cons]
        omega
  unfold getAllTasks sortByOrder
  rw [List.length_map, hfold]
  simp

theorem foldl_insertTask (ls : List Task) (rows : List TaskRow) :
    ls.foldl (fun db t => insertTask t db) rows = rows ++ ls.map taskToRow := by
  induction ls generalizing rows with
  | nil => simp
  | cons t rest ih =>
      rw [List.foldl_cons, ih]
      simp [insertTask]

/-- The `progress` and `status` fields written by `updateProgress` onto
the matching project. -/
theorem updateProgress_fields (ps : List Project) (id : String) (c t : Nat) (q : Project)
    (hq : q ∈ updateProgress id c t ps) (hid : q.id = id) :
    q.progress = progressValue c t ∧ q.status = statusValue (progressValue c t) := by
  have hq' : q ∈ ps.map (fun p =>
      if p.id = id then
        { p with
          completedTasks := c
          totalTasks := t
          progress := progressValue c t
          status := statusValue (progressValue c t) }
      else p) := hq
  rcases List.mem_map.mp hq' with ⟨p, hp, hpq⟩
  by_cases h : p.id = id
  · rw [if_pos h] at hpq
    subst hpq
    exact ⟨rfl, rfl⟩
  · rw [if_neg h] at hpq
    subst hpq
    exact absurd hid h

/-- `Math.round((c / t) * 100)` over exact rationals, computed as an
integer division, which lets concrete instances be evaluated. -/
theorem progressValue_eq (c t : Nat) (ht : 0 < t) :
    progressValue c t = ((200 * c + t : ℤ)) / ((2 * t : ℕ) : ℤ) := by
  unfold progressValue mathRound
  rw [if_pos ht]
  have ht0 : (t : ℚ) ≠ 0 := by
    exact_mod_cast Nat.pos_iff_ne_zero.mp ht
  have h : (c : ℚ) / (t : ℚ) * 100 + 1 / 2 = ((200 * c + t : ℤ) : ℚ) / ((2 * t : ℕ) : ℚ) := by
    field_simp
    ring
  rw [h, Rat.floor_intCast_div_natCast]

theorem progressValue_one_third : progressValue 1 3 = 33 := by
  rw [progressValue_eq 1 3 (by norm_num)]
  norm_num
/-! ## Concrete fixtures -/

/-- A recurring task with all optional fields populated. -/
def taskR : Task :=
  { id := "t1"
    title := "Water plants"
    completed := false
    category := Category.today
    priority := Priority.medium
    createdAt := "2026-10-10T08:00:00.000Z"
    projectId := none
    dueDate := some "2026-10-11"
    dueTime := some "09:00"
    isRecurring := some true
    lastCompletedAt := some "2026-10-09T08:00:00.000Z"
    order := some 0 }

/-- A recurring task completed on the previous calendar day. -/
def taskS : Task :=
  { id := "t2"
    title := "Journal"
    completed := true
    category := Category.today
    priority := Priority.medium
    createdAt := "2026-10-01T08:00:00.000Z"
    projectId := none
    dueDate := none
    dueTime := none
    isRecurring := some true
    lastCompletedAt := some "2026-10-11T20:00:00.000Z"
    order := some 0 }

/-- A plain non-recurring task (no optional field set). -/
def taskN : Task :=
  { id := "t3"
    title := "Refill printer"
    completed := false
    category := Category.week
    priority := Priority.low
    createdAt := "2026-10-02T08:00:00.000Z"
    projectId := none
    dueDate := none
    dueTime := none
    isRecurring := none
    lastCompletedAt := none
    order := some 0 }

/-- A `tasks`-table row in category today with order 0. -/
def rowA : TaskRow :=
  { id := "a"
    title := "Task A"
    completed := 0
    category := Category.today
    priority := Priority.medium
    created_at := "2026-10-01T08:00:00.000Z"
    project_id := none
    due_date := none
    task_order := 0 }

/-- A second row in category today with order 1. -/
def rowB : TaskRow :=
  { rowA with id := "b", title := "Task B", task_order := 1 }

/-- An on-hold project with no linked tasks counted yet. -/
def projP : Project :=
  { id := "p1"
    name := "Site"
    description := "Marketing site"
    progress := 0
    totalTasks := 0
    completedTasks := 0
    color := ProjectColor.slate
    status := ProjectStatus.onHold
    createdAt := "2026-09-01T00:00:00.000Z"
    deadline := none
    tags := [] }

/-- `projP` after `updateProgress(p1, 1, 3)`. -/
def projQ : Project :=
  { projP with completedTasks := 1, totalTasks := 3, progress := 33, status := ProjectStatus.active }

theorem projQ_mem : projQ ∈ updateProgress "p1" 1 3 [projP] := by
  have hs : statusValue (progressValue 1 3) = ProjectStatus.active := by
    rw [progressValue_one_third]
    simp [statusValue]
  simp [updateProgress, progressValue_one_third, hs, projP, projQ]
  norm_num [statusValue]

/-- A `Partial<Task>` supplying no field. -/
def noFields : TaskUpdate :=
  ⟨none, none, none, none, none, none, none, none, none, none, none, none⟩

/-- Stand-in for `new Date(s).toDateString()`: the calendar-day prefix
of an ISO timestamp. -/
def dayOfStub : String → String :=
  fun s => s.take 10

/-- Today's calendar day for the sweep fixtures. -/
def dayToday : String :=
  "2026-10-12"

/-- The id of `taskR`. -/
def tid1 : String :=
  "t1"

/-- The id of `taskN`. -/
def tid3 : String :=
  "t3"

/-- An id that occurs in no fixture collection. -/
def missingId : String :=
  "zzz"

/-- The project id of `projP`. -/
def pid1 : String :=
  "p1"

/-- A completion timestamp used by the toggle fixtures. -/
def stamp1 : String :=
  "2026-10-12T09:00:00.000Z"

/-- A later completion timestamp used by the toggle fixtures. -/
def stamp2 : String :=
  "2026-10-12T10:00:00.000Z"

/-- The reorder list `[b, a]` for the two today rows. -/
def reorderBA : List String :=
  ["b", "a"]

/-- The partial reorder list `[b]` that omits row `a`. -/
def reorderOnlyB : List String :=
  ["b"]
/-! ## Claims -/

/-- C1: the claim states that inserting any task through the task
repository and reading it back through the relational backend returns a
task equal in all fields, including `dueTime`, `isRecurring` and
`lastCompletedAt`. The `tasks` table has no columns for those three
fields: inserting `taskR` (which has all three set) and reading it back
with `getAllTasks` or `getTasksByCategory` yields the task with
`dueTime`, `isRecurring` and `lastCompletedAt` absent, so no read-back
task equals `taskR`. -/
theorem C1_relational_roundtrip_drops_fields :
    getAllTasks (insertTask taskR []) =
      [{ taskR with dueTime := none, isRecurring := none, lastCompletedAt := none }] ∧
    getTasksByCategory Category.today (insertTask taskR []) =
      [{ taskR with dueTime := none, isRecurring := none, lastCompletedAt := none }] ∧
    (∀ t ∈ getAllTasks (insertTask taskR []), t ≠ taskR) := by
  decide

/-- C2: the claim states that the daily recurring-reset sweep both
resets matching tasks in memory and persists each reset through the
repository in relational mode. Evaluated on a relational-mode state
holding the recurring task `taskS` (completed on the previous calendar
day) and its table row: the sweep sets `completed = false` on the
in-memory task, but the `tasks` table still holds the row with
`completed = 1` — the sweep performs no repository write. -/
theorem C2_sweep_resets_memory_but_not_repository :
    (resetRecurringDB dayOfStub dayToday ⟨[taskToRow taskS], [taskS]⟩).tasks =
      [{ taskS with completed := false }] ∧
    (resetRecurringDB dayOfStub dayToday ⟨[taskToRow taskS], [taskS]⟩).rows =
      [taskToRow taskS] ∧
    (taskToRow taskS).completed = 1 := by
  decide

/-- C3 (counterexample): the claim quantifies over every list passed to
`reorder`. Passing the partial list `[b]` to a table whose today rows
are `a` (order 0) and `b` (order 1) leaves the today orders at `[0, 0]`,
so the set of order values is `{0}`, not `{0, 1}`. -/
theorem C3_reorder_density_counterexample :
    (((updateTaskOrder Category.today reorderOnlyB [rowA, rowB]).filter
        (fun r => r.category == Category.today)).map TaskRow.task_order) = [0, 0] ∧
    (((updateTaskOrder Category.today reorderOnlyB [rowA, rowB]).filter
        (fun r => r.category == Category.today)).map TaskRow.task_order).toFinset ≠
      Finset.range (((updateTaskOrder Category.today reorderOnlyB [rowA, rowB]).filter
        (fun r => r.category == Category.today)).length) := by
  decide

/-- C3 (amended): when the table's ids are distinct and the supplied
list is a permutation of the ids of the tasks currently in category C,
`reorder(C, list)` leaves the multiset of `order` values of the tasks
in C exactly `{0, 1, ..., n-1}` where n is the number of tasks in C. -/
theorem C3_reorder_density_for_complete_lists (db : List TaskRow) (c : Category)
    (ids : List String) (hnd : (db.map TaskRow.id).Nodup)
    (hperm : List.Perm ids ((db.filter (fun r => r.category == c)).map TaskRow.id)) :
    List.Perm
      (((updateTaskOrder c ids db).filter (fun r => r.category == c)).map TaskRow.task_order)
      (List.range (((updateTaskOrder c ids db).filter (fun r => r.category == c)).length)) := by
  have hids : ids.Nodup := by
    refine hperm.nodup_iff.mpr ?_
    refine List.Nodup.sublist ?_ hnd
    exact List.Sublist.map TaskRow.id (List.filter_sublist db)
  have hEq : updateTaskOrder c ids db = db.map (pointwiseRun 0 ids) :=
    runOrderUpdates_eq_map ids 0 db
  have hfilter : (db.map (pointwiseRun 0 ids)).filter (fun r => r.category == c) =
      (db.filter (fun r => r.category == c)).map (pointwiseRun 0 ids) := by
    rw [List.filter_map]
    congr 1
    refine List.filter_congr fun r hr => ?_
    simp [Function.comp, pointwiseRun_category]
  have hmemids : ∀ r ∈ db.filter (fun r => r.category == c), r.id ∈ ids := by
    intro r hr
    exact hperm.mem_iff.mpr (List.mem_map_of_mem TaskRow.id hr)
  have hmap : ((db.filter (fun r => r.category == c)).map (pointwiseRun 0 ids)).map
        TaskRow.task_order =
      ((db.filter (fun r => r.category == c)).map TaskRow.id).map (fun a => posOf a ids) := by
    rw [List.map_map, List.map_map]
    refine List.map_congr_left fun r hr => ?_
    have hrun := pointwiseRun_mem ids 0 r hids (hmemids r hr)
    simp [Function.comp, hrun]
  have hlen : (((updateTaskOrder c ids db).filter (fun r => r.category == c)).length) =
      ids.length := by
    rw [hEq, hfilter, List.length_map, ← List.length_map (db.filter _) TaskRow.id,
      ← hperm.length_eq]
  rw [hlen, hEq, hfilter, hmap]
  have h1 := (hperm.map (fun a => posOf a ids)).symm
  rw [map_posOf_self ids hids] at h1
  exact h1

/-- C3 (witness): reordering the two today rows with the complete list
`[b, a]` yields today orders that are a permutation of `{0, 1}`. -/
theorem C3_reorder_density_witness :
    List.Perm
      (((updateTaskOrder Category.today reorderBA [rowA, rowB]).filter
          (fun r => r.category == Category.today)).map TaskRow.task_order)
      (List.range (((updateTaskOrder Category.today reorderBA [rowA, rowB]).filter
          (fun r => r.category == Category.today)).length)) :=
  C3_reorder_density_for_complete_lists [rowA, rowB] Category.today reorderBA
    (by decide) (by decide)

/-- C4: for every `updateProgress(id, c, t)` call, every project in the
resulting collection that carries the target id has `progress` equal to
`Math.round((c / t) * 100)` when `t > 0`, and `0` when `t = 0`. -/
theorem C4_updateProgress_progress_formula (ps : List Project) (id : String) (c t : Nat)
    (q : Project) (hq : q ∈ updateProgress id c t ps) (hid : q.id = id) :
    (0 < t → q.progress = mathRound ((c : ℚ) / (t : ℚ) * 100)) ∧
    (t = 0 → q.progress = 0) := by
  have h := (updateProgress_fields ps id c t q hq hid).1
  constructor
  · intro ht
    rw [h]
    unfold progressValue
    rw [if_pos ht]
  · intro ht
    rw [h]
    unfold progressValue
    simp [ht]

/-- C4 (witness): `updateProgress(p1, 1, 3)` on the collection `[projP]`
produces `projQ` (progress 33), whose progress satisfies the formula. -/
theorem C4_updateProgress_witness :
    (0 < 3 → projQ.progress = mathRound (((1 : Nat) : ℚ) / ((3 : Nat) : ℚ) * 100)) ∧
    (3 = 0 → projQ.progress = 0) :=
  C4_updateProgress_progress_formula [projP] pid1 1 3 projQ projQ_mem rfl

/-- C5: for every `updateProgress(id, c, t)` call, every project in the
resulting collection that carries the target id has status `completed`
exactly when the computed progress is 100, has status `active`
otherwise, and in particular is never `on-hold` afterwards. -/
theorem C5_updateProgress_status_linkage (ps : List Project) (id : String) (c t : Nat)
    (q : Project) (hq : q ∈ updateProgress id c t ps) (hid : q.id = id) :
    (q.status = ProjectStatus.completed ↔ progressValue c t = 100) ∧
    (progressValue c t ≠ 100 → q.status = ProjectStatus.active) ∧
    q.status ≠ ProjectStatus.onHold := by
  have h := (updateProgress_fields ps id c t q hq hid).2
  rw [h]
  unfold statusValue
  by_cases hp : progressValue c t = 100
  · simp [hp]
  · simp [hp]

/-- C5 (witness): `updateProgress(p1, 1, 3)` on the on-hold project
`projP` produces `projQ`, whose status satisfies the linkage — in
particular the previously on-hold project is `active`, not `on-hold`. -/
theorem C5_updateProgress_status_witness :
    (projQ.status = ProjectStatus.completed ↔ progressValue 1 3 = 100) ∧
    (progressValue 1 3 ≠ 100 → projQ.status = ProjectStatus.active) ∧
    projQ.status ≠ ProjectStatus.onHold :=
  C5_updateProgress_status_linkage [projP] pid1 1 3 projQ projQ_mem rfl

/-- C6: running the daily recurring-reset sweep twice with the same
`today` (no wall-clock day change) leaves the collection after the
second run equal to the collection after the first run. -/
theorem C6_recurring_sweep_idempotent (dayOf : String → String) (today : String)
    (ts : List Task) :
    resetRecurring dayOf today (resetRecurring dayOf today ts) = resetRecurring dayOf today ts := by
  by_cases hlen : (ts.filter (sweepMatch dayOf today)).length > 0
  · have hout : resetRecurring dayOf today ts =
        ts.map (fun t =>
          if (ts.filter (sweepMatch dayOf today)).any (fun t2 => t2.id == t.id) then
            { t with completed := false }
          else t) := by
      unfold resetRecurring
      rw [if_pos hlen]
    have hnone : ∀ t' ∈ resetRecurring dayOf today ts, sweepMatch dayOf today t' = false := by
      rw [hout]
      intro t' ht'
      rcases List.mem_map.mp ht' with ⟨t, ht, rfl⟩
      by_cases hany : (ts.filter (sweepMatch dayOf today)).any (fun t2 => t2.id == t.id)
      · rw [if_pos hany]
        simp [sweepMatch]
      · rw [if_neg hany]
        by_cases hm : sweepMatch dayOf today t
        · exact absurd (List.any_eq_true.mpr ⟨t, List.mem_filter.mpr ⟨ht, hm⟩, by simp⟩) hany
        · simpa using hm
    have hfilter : (resetRecurring dayOf today ts).filter (sweepMatch dayOf today) = [] :=
      List.filter_eq_nil_iff.mpr (fun t ht => by simp [hnone t ht])
    exact resetRecurring_nil_filter dayOf today _ hfilter
  · have hnil : ts.filter (sweepMatch dayOf today) = [] :=
      List.length_eq_zero.mp (by omega)
    have hid : resetRecurring dayOf today ts = ts :=
      resetRecurring_nil_filter dayOf today ts hnil
    rw [hid, hid]

/-- C7: the migration logic skips entirely when the relational store
already holds a row (first conjunct), running it a second time on the
resulting store contents changes nothing — no duplicate rows (second
conjunct) — and on an empty relational store it inserts every
durable-store entity, in order (third conjunct). -/
theorem C7_migration_skip_and_copy (rows : List TaskRow) (ls : List Task) :
    (rows ≠ [] → (migrateTasks rows ls).rows = rows) ∧
    (migrateTasks (migrateTasks rows ls).rows ls).rows = (migrateTasks rows ls).rows ∧
    (rows = [] → (migrateTasks rows ls).rows = ls.map taskToRow) := by
  have hskip : ∀ rows0 : List TaskRow, rows0 ≠ [] → (migrateTasks rows0 ls).rows = rows0 := by
    intro rows0 h0
    unfold migrateTasks
    have hpos : (getAllTasks rows0).length > 0 := by
      rw [getAllTasks_length]
      exact List.length_pos.mpr h0
    rw [if_pos hpos]
  have hempty : (migrateTasks [] ls).rows = ls.map taskToRow := by
    unfold migrateTasks
    have h0 : ¬((getAllTasks ([] : List TaskRow)).length > 0) := by
      rw [getAllTasks_length]
      simp
    rw [if_neg h0]
    by_cases hl : ls.length > 0
    · rw [if_pos hl, foldl_insertTask]
      simp
    · rw [if_neg hl]
      have hnil : ls = [] := List.length_eq_zero.mp (by omega)
      simp [hnil]
  refine ⟨hskip rows, ?_, fun h => h ▸ hempty⟩
  by_cases hr : rows = []
  · subst hr
    rw [hempty]
    by_cases hl : ls = []
    · subst hl
      simpa using hempty
    · exact hskip _ (by simpa using hl)
  · rw [hskip rows hr]
    exact hskip rows hr

/-- C7 (witness): a one-row store is left untouched by migration, and an
empty store receives the single durable task as its row. -/
theorem C7_migration_witness :
    (migrateTasks [rowA] [taskR]).rows = [rowA] ∧
    (migrateTasks ([] : List TaskRow) [taskR]).rows = [taskR].map taskToRow :=
  ⟨(C7_migration_skip_and_copy [rowA] [taskR]).1 (by decide),
   (C7_migration_skip_and_copy ([] : List TaskRow) [taskR]).2.2 rfl⟩

/-- C8: for every task in the collection carrying the toggled id, the
collection after `toggle(id)` contains its image with `completed`
flipped; when the task is recurring and was incomplete (so the flip is
a false-to-true transition) `lastCompletedAt` is stamped with the
current timestamp, and when the task was complete (a true-to-false
transition) `lastCompletedAt` is unchanged. -/
theorem C8_toggle_flips_and_stamps (ts : List Task) (now id : String) (p : Task)
    (hp : p ∈ ts) (hid : p.id = id) :
    ∃ q ∈ toggleTask now id ts,
      q.id = p.id ∧ q.completed = !p.completed ∧
      (truthyBool p.isRecurring = true → p.completed = false → q.lastCompletedAt = some now) ∧
      (p.completed = true → q.lastCompletedAt = p.lastCompletedAt) := by
  refine ⟨_, List.mem_map_of_mem _ hp, ?_⟩
  rw [if_pos hid]
  refine ⟨rfl, rfl, ?_, ?_⟩
  · intro h1 h2
    simp [h1, h2]
  · intro h
    simp [h]

/-- C8 (witness): toggling the incomplete recurring task `taskR` flips
it to completed and stamps `lastCompletedAt` with the timestamp. -/
theorem C8_toggle_witness :
    ∃ q ∈ toggleTask stamp1 tid1 [taskR],
      q.id = taskR.id ∧ q.completed = !taskR.completed ∧
      (truthyBool taskR.isRecurring = true → taskR.completed = false →
        q.lastCompletedAt = some stamp1) ∧
      (taskR.completed = true → q.lastCompletedAt = taskR.lastCompletedAt) :=
  C8_toggle_flips_and_stamps [taskR] stamp1 tid1 taskR (by simp) rfl

/-- C9: when no task in the in-memory collection carries the given id,
`update(id, partialFields)` and `remove(id)` leave the in-memory
collection unchanged; both operations are total, so no error reaches
the caller. -/
theorem C9_unknown_id_noop (s : ManagerState) (id : String) (u : TaskUpdate)
    (h : ∀ t ∈ s.tasks, t.id ≠ id) :
    (updateTaskDB id u s).tasks = s.tasks ∧ (deleteTaskDB id s).tasks = s.tasks := by
  have hmap : (s.tasks.map fun t => if t.id = id then applyUpdate u t else t) = s.tasks := by
    have hpt : ∀ t ∈ s.tasks, (if t.id = id then applyUpdate u t else t) = t :=
      fun t ht => if_neg (h t ht)
    rw [List.map_congr_left hpt, List.map_id']
  constructor
  · have hfind : (s.tasks.map fun t => if t.id = id then applyUpdate u t else t).find?
        (fun t => t.id == id) = none := by
      rw [hmap]
      refine List.find?_eq_none.mpr fun t ht => ?_
      simp [h t ht]
    simp only [updateTaskDB, hfind]
    exact hmap
  · simp only [deleteTaskDB, deleteTaskMem]
    refine List.filter_eq_self.mpr fun t ht => ?_
    simp [h t ht]

/-- C9 (witness): updating or removing the unknown id `zzz` on a
collection holding only `taskR` leaves the collection as it was. -/
theorem C9_unknown_id_witness :
    (updateTaskDB missingId noFields ⟨[rowA], [taskR]⟩).tasks = [taskR] ∧
    (deleteTaskDB missingId ⟨[rowA], [taskR]⟩).tasks = [taskR] :=
  C9_unknown_id_noop ⟨[rowA], [taskR]⟩ missingId noFields (by decide)

/-- C10: when every task carrying the toggled id has its `isRecurring`
flag unset (not truthy), toggling that id twice restores the collection
exactly — the toggled task returns to its original value in all fields
and every other task is untouched. -/
theorem C10_toggle_involution (ts : List Task) (now1 now2 id : String)
    (h : ∀ t ∈ ts, t.id = id → truthyBool t.isRecurring = false) :
    toggleTask now2 id (toggleTask now1 id ts) = ts := by
  unfold toggleTask
  rw [List.map_map]
  have hpt : ∀ t ∈ ts, (Function.comp
      (fun t : Task =>
        if t.id = id then
          { t with
            completed := !t.completed
            lastCompletedAt :=
              if truthyBool t.isRecurring && !t.completed then some now2 else t.lastCompletedAt }
        else t)
      (fun t : Task =>
        if t.id = id then
          { t with
            completed := !t.completed
            lastCompletedAt :=
              if truthyBool t.isRecurring && !t.completed then some now1 else t.lastCompletedAt }
        else t)) t = t := by
    intro t ht
    by_cases hid : t.id = id
    · have hrec := h t ht hid
      subst hid
      simp [Function.comp, hrec]
    · simp [Function.comp, hid]
  rw [List.map_congr_left hpt, List.map_id']

/-- C10 (witness): double-toggling the non-recurring task `taskN`
restores the singleton collection exactly. -/
theorem C10_toggle_involution_witness :
    toggleTask stamp2 tid3 (toggleTask stamp1 tid3 [taskN]) = [taskN] :=
  C10_toggle_involution [taskN] stamp1 stamp2 tid3 (by decide)

end LuminaNote
